import Mathlib

/-!
Verification development for the smart-code-search repository.

The Python sources are shallowly embedded as executable Lean definitions:
pure string and list manipulation is translated directly, and the calls into
third-party services (GitPython, FAISS, the Ollama embedding and chat
models, the langchain loaders and splitter) are represented by explicit
data models or by function parameters whose behaviour the theorems
quantify over.
-/

/-- A langchain `Document`: a page content string together with the
`source` entry of its metadata dictionary (absent when the key is missing). -/
structure Document where
  page_content : String
  source : Option String
deriving DecidableEq, Repr

/- ### Git model (GitPython, as used by `get_changed_files`)

A commit is modelled by its tree: an association list from file path to
blob content.  A repository is the list of commits of the default branch,
newest first (the order of `repo.iter_commits`), together with the paths
recorded in the git index (`repo.index.entries`). -/

/-- A git commit, modelled by its tree of (path, blob content) pairs. -/
structure Commit where
  tree : List (String × String)
deriving DecidableEq

/-- A git repository after checkout of the default branch: commits of that
branch newest first, and the file paths of the git index. -/
structure GitRepo where
  commits : List Commit
  indexEntries : List String
deriving DecidableEq

/-- The `f"{repo_path}/{path}"` prefixing used by `get_changed_files`. -/
def withRepo (repo_path p : String) : String := repo_path ++ "/" ++ p

/-- The set of paths reported by GitPython for `a.diff(b)` in raw format:
every path whose blob differs between the two trees (additions, deletions
and modifications all report the changed path). -/
def diffPaths (a b : List (String × String)) : List String :=
  ((a.map Prod.fst ++ b.map Prod.fst).dedup).filter
    (fun p => decide ¬(a.lookup p = b.lookup p))

/-- Embedding of `get_changed_files` (src/utils/document_processor.py,
lines 14-62).  The clone / checkout / pull side effects only establish the
`GitRepo` state and are not modelled.  `git.NULL_TREE` is the empty tree.
A repository with no commit at all makes the Python code raise when
unpacking `commits[0], commits[1]`, modelled by `none`. -/
def get_changed_files (repo : GitRepo) (repo_path : String) (get_all_files : Bool) :
    Option (List String) :=
  if get_all_files then some (repo.indexEntries.map (withRepo repo_path))
  else
    match repo.commits with
    | [] => none
    | [latest] => some ((diffPaths latest.tree []).map (withRepo repo_path))
    | latest :: previous :: _ =>
        some ((diffPaths previous.tree latest.tree).map (withRepo repo_path))

theorem lookup_isSome_iff_mem {β : Type} (l : List (String × β)) (p : String) :
    (l.lookup p).isSome = true ↔ p ∈ l.map Prod.fst := by
  induction l with
  | nil => simp [List.lookup]
  | cons hd tl ih =>
      obtain ⟨k, v⟩ := hd
      by_cases h : p = k
      · subst h
        simp [List.lookup]
      · have hbeq : (p == k) = false := beq_eq_false_iff_ne.mpr h
        simp [List.lookup, hbeq, ih, h]

theorem mem_diffPaths (a b : List (String × String)) (p : String) :
    p ∈ diffPaths a b ↔ ¬(a.lookup p = b.lookup p) := by
  unfold diffPaths
  rw [List.mem_filter, List.mem_dedup, List.mem_append, decide_eq_true_iff]
  constructor
  · intro h
    exact h.2
  · intro h
    refine ⟨?_, h⟩
    by_cases ha : (a.lookup p).isSome = true
    · exact Or.inl ((lookup_isSome_iff_mem a p).mp ha)
    · have hb : (b.lookup p).isSome = true := by
        cases hlb : b.lookup p with
        | none =>
            cases hla : a.lookup p with
            | none => exact absurd (hla.trans hlb.symm) h
            | some v => exact absurd (by rw [hla]; rfl) ha
        | some v => rfl
      exact Or.inr ((lookup_isSome_iff_mem b p).mp hb)

/-- C1: `get_changed_files` with `get_all_files = True` returns every file
recorded in the git index (after checkout and pull, exactly the files of
the head commit) prefixed with `repo_path`; with a single commit on the
branch it returns all files of that commit (diff against the null tree)
prefixed with `repo_path`; with at least two commits it returns exactly
the set of paths changed between the last two commits, prefixed with
`repo_path`. -/
theorem get_changed_files_spec (repo : GitRepo) (rp : String) :
    (∀ c rest, repo.commits = c :: rest →
        repo.indexEntries = c.tree.map Prod.fst →
        get_changed_files repo rp true = some ((c.tree.map Prod.fst).map (withRepo rp)))
    ∧ (∀ c, repo.commits = [c] →
        ∀ q, q ∈ (get_changed_files repo rp false).getD [] ↔
          ∃ p, (c.tree.lookup p).isSome = true ∧ q = withRepo rp p)
    ∧ (∀ la pr rest, repo.commits = la :: pr :: rest →
        ∀ q, q ∈ (get_changed_files repo rp false).getD [] ↔
          ∃ p, ¬(pr.tree.lookup p = la.tree.lookup p) ∧ q = withRepo rp p) := by
  refine ⟨?_, ?_, ?_⟩
  · intro c rest hc hidx
    simp [get_changed_files, hidx]
  · intro c hc q
    have hres : (get_changed_files repo rp false).getD [] =
        (diffPaths c.tree []).map (withRepo rp) := by
      simp [get_changed_files, hc]
    rw [hres, List.mem_map]
    constructor
    · rintro ⟨p, hp, rfl⟩
      rw [mem_diffPaths] at hp
      refine ⟨p, ?_, rfl⟩
      cases hl : c.tree.lookup p with
      | none => exact absurd (by rw [hl]; rfl) hp
      | some v => rfl
    · rintro ⟨p, hp, rfl⟩
      refine ⟨p, ?_, rfl⟩
      rw [mem_diffPaths]
      intro hcon
      rw [hcon] at hp
      simp [List.lookup] at hp
  · intro la pr rest hc q
    have hres : (get_changed_files repo rp false).getD [] =
        (diffPaths pr.tree la.tree).map (withRepo rp) := by
      simp [get_changed_files, hc]
    rw [hres, List.mem_map]
    constructor
    · rintro ⟨p, hp, rfl⟩
      rw [mem_diffPaths] at hp
      exact ⟨p, hp, rfl⟩
    · rintro ⟨p, hp, rfl⟩
      refine ⟨p, ?_, rfl⟩
      rw [mem_diffPaths]
      exact hp

/-- A two-commit repository where only file `a` changed between the last
two commits. -/
def repoTwo : GitRepo :=
  ⟨[⟨[("a", "2"), ("b", "1")]⟩, ⟨[("a", "1"), ("b", "1")]⟩], ["a", "b"]⟩

theorem get_changed_files_spec_witness :
    "r/a" ∈ (get_changed_files repoTwo ("r") false).getD [] ↔
      ∃ p, ¬((Commit.tree ⟨[("a", "1"), ("b", "1")]⟩).lookup p =
             (Commit.tree ⟨[("a", "2"), ("b", "1")]⟩).lookup p) ∧
           "r/a" = withRepo ("r") p :=
  (get_changed_files_spec repoTwo ("r")).2.2 ⟨[("a", "2"), ("b", "1")]⟩
    ⟨[("a", "1"), ("b", "1")]⟩ [] rfl ("r/a")

/- ### FAISS vectorstore model (src/utils/vectorstore.py)

A FAISS store is modelled by its list of (document, embedding vector)
entries, in insertion order.  The Ollama embedding model is a function
parameter `emb : String → List Int`.  The persisted `./faiss_index`
directory is modelled as `Option` of the serialized entry list: `none`
when the directory does not exist or `FAISS.load_local` fails with a
`RuntimeError`. -/

/-- A FAISS vectorstore: the (document, embedding) pairs it holds. -/
structure FAISSStore where
  entries : List (Document × List Int)
deriving DecidableEq

/-- `FAISS.from_documents`: embed every document and build a fresh store. -/
def fromDocuments (emb : String → List Int) (docs : List Document) : FAISSStore :=
  ⟨docs.map (fun d => (d, emb d.page_content))⟩

/-- `vectorstore.add_documents`: embed the documents and append them. -/
def addDocuments (emb : String → List Int) (vs : FAISSStore) (docs : List Document) :
    FAISSStore :=
  ⟨vs.entries ++ docs.map (fun d => (d, emb d.page_content))⟩

/-- The successive slices `l[i:i+bs]` visited by `range(0, len(l), bs)`.
The fuel argument (initially `l.length`) only bounds the recursion; it is
never exhausted when `0 < bs`. -/
def batchesAux (bs : Nat) : Nat → List Document → List (List Document)
  | 0, _ => []
  | _, [] => []
  | fuel + 1, l => l.take bs :: batchesAux bs fuel (l.drop bs)

/-- The batches `l[0:bs], l[bs:2*bs], ...` of a document list.  Python
raises `ValueError` on a zero step, so `bs = 0` is mapped to no batches. -/
def batches (bs : Nat) (l : List Document) : List (List Document) :=
  if bs = 0 then [] else batchesAux bs l.length l

/-- Embedding of `add_document_batches` (src/utils/vectorstore.py, lines
214-246): add every batch of `documents` to the store in order.  The
progress bar and timing are not modelled; the per-batch `try/except` only
prints, and embedding is total here. -/
def add_document_batches (emb : String → List Int) (documents : List Document)
    (vs : FAISSStore) (batch_size : Nat) : FAISSStore :=
  (batches batch_size documents).foldl (fun s b => addDocuments emb s b) vs

/-- Embedding of `init_vectorstore` (src/utils/vectorstore.py, lines
171-211): `None` for an empty document list; otherwise the store is
created from the first batch, and when anything remains beyond the first
batch, `add_document_batches` is called on the FULL `documents` list,
exactly as in the source. -/
def init_vectorstore (emb : String → List Int) (documents : List Document)
    (batch_size : Nat) : Option FAISSStore :=
  if documents.isEmpty then none
  else
    let first := documents.take (min batch_size documents.length)
    let vs := fromDocuments emb first
    let remaining := if batch_size < documents.length then documents.drop batch_size else []
    if remaining.isEmpty then some vs
    else some (add_document_batches emb documents vs batch_size)

/-- One serialized record of the on-disk index: page content, source
metadata, and embedding vector. -/
def serializeE (e : Document × List Int) : (String × Option String) × List Int :=
  ((e.1.page_content, e.1.source), e.2)

/-- Reading one serialized record back. -/
def deserializeE (r : (String × Option String) × List Int) : Document × List Int :=
  (⟨r.1.1, r.1.2⟩, r.2)

/-- The serialized form of the `./faiss_index` directory. -/
def DiskIndex : Type := Option (List ((String × Option String) × List Int))

/-- Embedding of `save_vectorstore` (src/utils/vectorstore.py, lines
249-254): a `None` store leaves the disk unchanged, otherwise the store
is serialized with `save_local`. -/
def save_vectorstore (vs : Option FAISSStore) (disk : DiskIndex) : DiskIndex :=
  match vs with
  | none => disk
  | some s => some (s.entries.map serializeE)

/-- Embedding of `get_vectorstore` (src/utils/vectorstore.py, lines 8-26):
`None` when `./faiss_index` does not exist or `load_local` raises, the
deserialized store otherwise. -/
def get_vectorstore (disk : DiskIndex) : Option FAISSStore :=
  match disk with
  | none => none
  | some rs => some ⟨rs.map deserializeE⟩

/-- Embedding of `index_documents` (src/utils/document_processor.py, lines
132-140): add to a loadable persisted index, otherwise initialize a fresh
one (with the source's default `batch_size = 100`). -/
def index_documents (emb : String → List Int) (documents : List Document)
    (disk : DiskIndex) : Option FAISSStore :=
  match get_vectorstore disk with
  | some vs => some (addDocuments emb vs documents)
  | none => init_vectorstore emb documents 100

/-- A trivial embedding model, used for concrete evaluations. -/
def embZero : String → List Int := fun _ => [0]

/-- `n` pairwise distinct documents `"0", "1", ...`. -/
def mkDocs (n : Nat) : List Document :=
  (List.range n).map (fun i => ⟨toString i, none⟩)

set_option maxRecDepth 20000 in
/-- C2: evaluation of `init_vectorstore` at 101 documents with the default
`batch_size = 100`. The store is seeded with the first batch of 100
documents and then `add_document_batches` is passed the FULL document list
(the computed `remaining` slice is never used), so the result holds 201
entries and the first document is embedded and stored twice, refuting
"contains each input document exactly once". -/
theorem init_vectorstore_first_batch_twice :
    (init_vectorstore embZero (mkDocs 101) 100).map (fun s => s.entries.length) = some 201
    ∧ (init_vectorstore embZero (mkDocs 101) 100).map
        (fun s => s.entries.countP (fun e => decide (e.1.page_content = "0"))) = some 2
    ∧ (init_vectorstore embZero (mkDocs 101) 100).map
        (fun s => s.entries.countP (fun e => decide (e.1.page_content = "100"))) = some 1 := by
  refine ⟨?_, ?_, ?_⟩ <;> rfl

set_option maxRecDepth 20000 in
/-- C3: evaluation of `index_documents` when no index can be loaded from
disk and 101 chunks are given: the fresh index is initialized through
`init_vectorstore` and therefore holds 201 entries (the first batch twice)
instead of exactly the 101 given chunks; the incremental branch, in
contrast, appends the chunks to the loaded entries. -/
theorem index_documents_fresh_init_duplicates :
    (index_documents embZero (mkDocs 101) none).map (fun s => s.entries.length) = some 201
    ∧ (index_documents embZero (mkDocs 101) none).map
        (fun s => s.entries.countP (fun e => decide (e.1.page_content = "0"))) = some 2 := by
  refine ⟨?_, ?_⟩ <;> rfl

/-- C4: saving a non-`None` vectorstore and loading it back yields the
very same store: the same documents with the same embeddings, so the
index persists across runs. -/
theorem save_then_get_roundtrip (vs : Option FAISSStore) (disk : DiskIndex)
    (h : vs.isSome = true) :
    get_vectorstore (save_vectorstore vs disk) = vs := by
  cases vs with
  | none => simp at h
  | some s =>
      cases s with
      | mk entries =>
          have hcomp : ∀ e : Document × List Int, deserializeE (serializeE e) = e :=
            fun _ => rfl
          have hfun : deserializeE ∘ serializeE = id := funext hcomp
          simp [save_vectorstore, get_vectorstore, List.map_map, hfun]

/-- A concrete one-entry store for the round-trip witness. -/
def storeW : FAISSStore := ⟨[(⟨"a", some ("p")⟩, [1, 2])]⟩

theorem save_then_get_roundtrip_witness :
    (some storeW).isSome = true
    ∧ get_vectorstore (save_vectorstore (some storeW) none) = some storeW :=
  ⟨rfl, save_then_get_roundtrip (some storeW) none rfl⟩

/- ### Document loading and splitting (src/utils/document_processor.py)

`os.path.exists` is a function parameter `ex`; the four langchain loaders
(`TextLoader`, `CSVLoader`, `NotebookLoader`, `PyPDFLoader`) are function
parameters returning `Except` (an `error` models a raised exception, which
the source catches and counts as a failed file).  The
`RecursiveCharacterTextSplitter` is modelled by its documented contract:
fixed-size chunks of at most `chunk_size` characters whose consecutive
chunks share `chunk_overlap` characters. -/

/-- The basename of a posix path: everything after the last slash. -/
def baseNameChars (l : List Char) : List Char :=
  (l.reverse.takeWhile (fun c => !(c == '/'))).reverse

/-- The extension part of `os.path.splitext` on a basename: from the last
dot on, provided some earlier character of the basename is not a dot. -/
def extOfChars (b : List Char) : List Char :=
  let r := b.reverse
  let sufRev := r.takeWhile (fun c => !(c == '.'))
  if sufRev.length = r.length then []
  else
    let preLen := b.length - sufRev.length - 1
    if (b.take preLen).any (fun c => !(c == '.')) then b.drop preLen else []

/-- `os.path.splitext(file_path)[1].lower()`. -/
def extOf (p : String) : String :=
  String.mk ((extOfChars (baseNameChars p.toList)).map Char.toLower)

/-- `os.path.basename`. -/
def basenameStr (p : String) : String := String.mk (baseNameChars p.toList)

/-- The four loader families dispatched on in `load_and_split_documents`. -/
inductive Loader where
  | text
  | csv
  | notebook
  | pdf
deriving DecidableEq

/-- The extensions routed to `TextLoader`, in source order. -/
def textExtensions : List String :=
  [".txt", ".md", ".py", ".js", ".html", ".css", ".java", ".c", ".cpp", ".ts",
   ".yaml", ".yml", ".toml", ".json", ".xml", ".ini", ".config", ".conf"]

/-- The `if/elif` loader dispatch of `load_and_split_documents`; `none`
means the file type is unknown and the file is skipped. -/
def chooseLoader (ext : String) : Option Loader :=
  if ext ∈ textExtensions then some Loader.text
  else if ext = ".csv" then some Loader.csv
  else if ext = ".ipynb" then some Loader.notebook
  else if ext = ".pdf" then some Loader.pdf
  else none

/-- Run the selected loader (each one a parameter of the embedding). -/
def runLoader (tl cl nl pl : String → Except String (List Document)) :
    Loader → String → Except String (List Document)
  | Loader.text, p => tl p
  | Loader.csv, p => cl p
  | Loader.notebook, p => nl p
  | Loader.pdf, p => pl p

/-- The loading loop of `load_and_split_documents` (lines 83-116): missing
paths are skipped, unknown extensions are skipped, loader exceptions are
caught and the file is skipped, successful loads are appended in order. -/
def loadDocs (tl cl nl pl : String → Except String (List Document))
    (ex : String → Bool) : List String → List Document
  | [] => []
  | p :: rest =>
      if ex p then
        match chooseLoader (extOf p) with
        | some ldr =>
            match runLoader tl cl nl pl ldr p with
            | Except.ok ds => ds ++ loadDocs tl cl nl pl ex rest
            | Except.error _ => loadDocs tl cl nl pl ex rest
        | none => loadDocs tl cl nl pl ex rest
      else loadDocs tl cl nl pl ex rest

/-- One step list of the text splitter: chunks start every
`cz - co` characters and are `cz` characters long (the last one shorter).
The fuel (initially the text length) only bounds the recursion and is
never exhausted. -/
def chunksOfAux (cz co : Nat) : Nat → List Char → List (List Char)
  | 0, cs => [cs]
  | fuel + 1, cs =>
      if cs.length ≤ cz ∨ cz ≤ co then [cs]
      else cs.take cz :: chunksOfAux cz co fuel (cs.drop (cz - co))

/-- The overlapping fixed-size chunks of a text, per the splitter contract
(chunk size `cz`, overlap `co`). -/
def chunksOf (cz co : Nat) (cs : List Char) : List (List Char) :=
  chunksOfAux cz co cs.length cs

/-- `split_documents` on one document: split its text, keeping metadata. -/
def splitDoc (cz co : Nat) (d : Document) : List Document :=
  (chunksOf cz co d.page_content.toList).map (fun l => ⟨String.mk l, d.source⟩)

/-- Embedding of `load_and_split_documents` (src/utils/document_processor.py,
lines 65-129): load the files that exist and have a known extension, then
split every loaded document; the empty list when nothing loaded. -/
def load_and_split_documents (tl cl nl pl : String → Except String (List Document))
    (ex : String → Bool) (file_paths : List String) (chunk_size chunk_overlap : Nat) :
    List Document :=
  let documents := loadDocs tl cl nl pl ex file_paths
  if documents.isEmpty then []
  else documents.flatMap (splitDoc chunk_size chunk_overlap)

theorem chunksOfAux_length_le (cz co : Nat) (hco : co < cz) :
    ∀ (fuel : Nat) (cs : List Char), cs.length ≤ fuel →
      ∀ c ∈ chunksOfAux cz co fuel cs, c.length ≤ cz := by
  intro fuel
  induction fuel with
  | zero =>
      intro cs hcs c hc
      have hnil : cs = [] := List.eq_nil_of_length_eq_zero (Nat.le_zero.mp hcs)
      subst hnil
      simp only [chunksOfAux, List.mem_singleton] at hc
      subst hc
      simp
  | succ n ih =>
      intro cs hcs c hc
      simp only [chunksOfAux] at hc
      split at hc
      · next h =>
          rw [List.mem_singleton] at hc
          subst hc
          rcases h with h | h
          · exact h
          · omega
      · next h =>
          rcases List.mem_cons.mp hc with rfl | hc2
          · exact List.length_take_le cz cs
          · refine ih _ ?_ c hc2
            simp only [List.length_drop]
            omega

theorem chunksOfAux_head_take (cz co : Nat) (hco : co ≤ cz) (fuel : Nat)
    (ys b : List Char) (t : List (List Char))
    (he : chunksOfAux cz co fuel ys = b :: t) :
    b.take co = ys.take co := by
  cases fuel with
  | zero =>
      simp only [chunksOfAux] at he
      injection he with h1 h2
      subst h1
      rfl
  | succ n =>
      simp only [chunksOfAux] at he
      split at he
      · injection he with h1 h2
        subst h1
        rfl
      · injection he with h1 h2
        subst h1
        rw [List.take_take]
        rw [min_eq_left hco]

theorem chunksOfAux_consec (cz co : Nat) (hco : co < cz) :
    ∀ (fuel : Nat) (cs : List Char), cs.length ≤ fuel →
      ∀ (pre post : List (List Char)) (a b : List Char),
        chunksOfAux cz co fuel cs = pre ++ a :: b :: post →
        b.take co = a.drop (cz - co) := by
  intro fuel
  induction fuel with
  | zero =>
      intro cs hcs pre post a b he
      exfalso
      have hlen := congrArg List.length he
      simp only [chunksOfAux, List.length_singleton, List.length_append,
        List.length_cons, List.length_nil] at hlen
      omega
  | succ n ih =>
      intro cs hcs pre post a b he
      simp only [chunksOfAux] at he
      split at he
      · exfalso
        have hlen := congrArg List.length he
        simp only [List.length_singleton, List.length_append, List.length_cons,
          List.length_nil] at hlen
        omega
      · next h =>
          cases pre with
          | nil =>
              simp only [List.nil_append] at he
              injection he with h1 h2
              subst h1
              have hb := chunksOfAux_head_take cz co (le_of_lt hco) n _ b post h2
              rw [hb, List.take_drop]
              have hsum : cz - co + co = cz := by omega
              rw [hsum]
          | cons p pre2 =>
              simp only [List.cons_append] at he
              injection he with h1 h2
              refine ih _ ?_ pre2 post a b h2
              simp only [List.length_drop]
              omega

theorem chunksOf_length_le (cz co : Nat) (hco : co < cz) (cs : List Char) :
    ∀ c ∈ chunksOf cz co cs, c.length ≤ cz :=
  chunksOfAux_length_le cz co hco cs.length cs le_rfl

theorem chunksOf_consec (cz co : Nat) (hco : co < cz) (cs : List Char)
    (pre post : List (List Char)) (a b : List Char)
    (he : chunksOf cz co cs = pre ++ a :: b :: post) :
    b.take co = a.drop (cz - co) :=
  chunksOfAux_consec cz co hco cs.length cs le_rfl pre post a b he

/-- C5: every chunk returned by `load_and_split_documents` has at most
`chunk_size` characters; for every loaded document, any two consecutive
chunks of its text overlap in exactly `chunk_overlap` characters (the
first `chunk_overlap` characters of the later chunk are the characters of
the earlier chunk past position `chunk_size - chunk_overlap`); and the
loader is selected by file extension (text, csv, notebook, pdf, or
skipped). -/
theorem load_and_split_documents_chunk_spec
    (tl cl nl pl : String → Except String (List Document)) (ex : String → Bool)
    (paths : List String) (cz co : Nat) (hco : co < cz) :
    (∀ d ∈ load_and_split_documents tl cl nl pl ex paths cz co,
        d.page_content.length ≤ cz)
    ∧ (∀ doc ∈ loadDocs tl cl nl pl ex paths,
        ∀ (pre post : List (List Char)) (a b : List Char),
          chunksOf cz co doc.page_content.toList = pre ++ a :: b :: post →
          b.take co = a.drop (cz - co))
    ∧ (chooseLoader (extOf ("dir/a.py")) = some Loader.text
        ∧ chooseLoader (extOf ("a.csv")) = some Loader.csv
        ∧ chooseLoader (extOf ("a.ipynb")) = some Loader.notebook
        ∧ chooseLoader (extOf ("a.pdf")) = some Loader.pdf
        ∧ chooseLoader (extOf ("a.exe")) = none) := by
  refine ⟨?_, ?_, ?_⟩
  · intro d hd
    by_cases hemp : (loadDocs tl cl nl pl ex paths).isEmpty
    · simp [load_and_split_documents, hemp] at hd
    · simp only [load_and_split_documents, Bool.not_eq_true] at hd
      rw [if_neg (by simp [hemp])] at hd
      obtain ⟨doc, hdoc, hd2⟩ := List.mem_flatMap.mp hd
      simp only [splitDoc, List.mem_map] at hd2
      obtain ⟨l, hl, rfl⟩ := hd2
      have hlen := chunksOf_length_le cz co hco _ l hl
      exact hlen
  · intro doc hdoc pre post a b he
    exact chunksOf_consec cz co hco _ pre post a b he
  · exact ⟨rfl, rfl, rfl, rfl, rfl⟩

/-- A concrete text loader used by the C5 witness. -/
def tlW : String → Except String (List Document) :=
  fun p => Except.ok [⟨"hello brave new world", some p⟩]

/-- A loader that always raises, used by the witnesses. -/
def failLoader : String → Except String (List Document) :=
  fun _ => Except.error ("boom")

theorem load_and_split_documents_chunk_spec_witness :
    2 < 5
    ∧ ∀ d ∈ load_and_split_documents tlW failLoader failLoader failLoader
          (fun _ => true) ["a.py"] 5 2,
        d.page_content.length ≤ 5 :=
  ⟨by decide,
   (load_and_split_documents_chunk_spec tlW failLoader failLoader failLoader
      (fun _ => true) ["a.py"] 5 2 (by decide)).1⟩

/-- Whether `load_and_split_documents` obtains documents from a path: the
path exists, its extension has a loader, and that loader does not raise. -/
def goodPath (tl cl nl pl : String → Except String (List Document))
    (ex : String → Bool) (p : String) : Bool :=
  ex p &&
    match chooseLoader (extOf p) with
    | none => false
    | some ldr => (runLoader tl cl nl pl ldr p).isOk

theorem loadDocs_filter (tl cl nl pl : String → Except String (List Document))
    (ex : String → Bool) (paths : List String) :
    loadDocs tl cl nl pl ex paths =
      loadDocs tl cl nl pl ex
        (paths.filter (fun p => ex p && (chooseLoader (extOf p)).isSome)) := by
  induction paths with
  | nil => rfl
  | cons p rest ih =>
      by_cases hex : ex p
      · cases hcl : chooseLoader (extOf p) with
        | none => simp [loadDocs, List.filter_cons, hex, hcl, ih]
        | some ldr =>
            cases hrun : runLoader tl cl nl pl ldr p with
            | ok ds => simp [loadDocs, List.filter_cons, hex, hcl, hrun, ih]
            | error e => simp [loadDocs, List.filter_cons, hex, hcl, hrun, ih]
      · simp [loadDocs, List.filter_cons, hex, ih]

theorem loadDocs_nil_of_bad (tl cl nl pl : String → Except String (List Document))
    (ex : String → Bool) (paths : List String)
    (h : ∀ p ∈ paths, goodPath tl cl nl pl ex p = false) :
    loadDocs tl cl nl pl ex paths = [] := by
  induction paths with
  | nil => rfl
  | cons p rest ih =>
      have hp := h p (List.mem_cons_self p rest)
      have hrest : ∀ q ∈ rest, goodPath tl cl nl pl ex q = false :=
        fun q hq => h q (List.mem_cons_of_mem p hq)
      by_cases hex : ex p
      · cases hcl : chooseLoader (extOf p) with
        | none => simp [loadDocs, hex, hcl, ih hrest]
        | some ldr =>
            cases hrun : runLoader tl cl nl pl ldr p with
            | ok ds =>
                exfalso
                simp [goodPath, hex, hcl, hrun, Except.isOk, Except.toBool] at hp
            | error e => simp [loadDocs, hex, hcl, hrun, ih hrest]
      · simp [loadDocs, hex, ih hrest]

/-- C10: `load_and_split_documents` is insensitive to paths that do not
exist or whose extension has no loader (its result equals the result on
the filtered path list), and it returns the empty list whenever no path
both exists, is supported and loads without raising; the embedding is a
total function, mirroring that every loader exception is caught. -/
theorem load_and_split_documents_skip_spec
    (tl cl nl pl : String → Except String (List Document)) (ex : String → Bool)
    (paths : List String) (cz co : Nat) :
    (load_and_split_documents tl cl nl pl ex paths cz co =
      load_and_split_documents tl cl nl pl ex
        (paths.filter (fun p => ex p && (chooseLoader (extOf p)).isSome)) cz co)
    ∧ ((∀ p ∈ paths, goodPath tl cl nl pl ex p = false) →
        load_and_split_documents tl cl nl pl ex paths cz co = []) := by
  constructor
  · unfold load_and_split_documents
    rw [← loadDocs_filter]
  · intro hbad
    unfold load_and_split_documents
    rw [loadDocs_nil_of_bad tl cl nl pl ex paths hbad]
    rfl

/-- File-existence oracle for the C10 witness: only the unsupported
`a.exe` and the csv file whose loader raises exist on disk. -/
def exW : String → Bool := fun p => p == "a.exe" || p == "b.csv"

theorem load_and_split_documents_skip_spec_witness :
    (∀ p ∈ ["missing.py", "a.exe", "b.csv"],
        goodPath tlW failLoader failLoader failLoader exW p = false)
    ∧ load_and_split_documents tlW failLoader failLoader failLoader exW
        ["missing.py", "a.exe", "b.csv"] 1000 100 = [] :=
  ⟨by decide,
   (load_and_split_documents_skip_spec tlW failLoader failLoader failLoader exW
      ["missing.py", "a.exe", "b.csv"] 1000 100).2 (by decide)⟩

/- ### Retriever model (src/utils/reranker.py and src/utils/qa_chain.py)

`vectorstore.as_retriever` only packages a search configuration; a
retriever is modelled by that configuration.  The `mmr_raises` flag states
whether building the MMR retriever raises. -/

/-- A langchain retriever configuration: MMR with its `k`, `fetch_k` and
`lambda_mult` search kwargs, or plain similarity with its `k`. -/
inductive Retriever where
  | mmr (store : FAISSStore) (k fetch_k : Nat) (lambda_mult : Rat)
  | similarity (store : FAISSStore) (k : Nat)
deriving DecidableEq

/-- The number of documents a retriever finally returns (its `k`). -/
def Retriever.keepK : Retriever → Nat
  | Retriever.mmr _ k _ _ => k
  | Retriever.similarity _ k => k

/-- Embedding of `create_mmr_retriever` (src/utils/reranker.py, lines
1-40): build the MMR retriever with `k`, `fetch_k = top_k` and
`lambda_mult`; when its construction raises, fall back to a plain
similarity retriever with the same `k`. -/
def create_mmr_retriever (vectorstore : FAISSStore) (k top_k : Nat)
    (lambda_mult : Rat) (mmr_raises : Bool) : Retriever :=
  if mmr_raises then Retriever.similarity vectorstore k
  else Retriever.mmr vectorstore k top_k lambda_mult

/-- The retriever choice of `qa_search` (src/utils/qa_chain.py, lines
30-37): `create_mmr_retriever` when `rerank` is set (the source calls it
with its default `lambda_mult = 0.8`), plain similarity otherwise. -/
def qaRetriever (vectorstore : FAISSStore) (k top_k : Nat)
    (rerank mmr_raises : Bool) : Retriever :=
  if rerank then create_mmr_retriever vectorstore k top_k (8 / 10 : Rat) mmr_raises
  else Retriever.similarity vectorstore k

/-- C6: `create_mmr_retriever` returns the MMR retriever keeping `k`
results out of `top_k` fetched candidates; when the MMR construction
raises it falls back to a plain similarity retriever also returning `k`
results; and `qa_search` routes its `rerank=True` branch through it. -/
theorem create_mmr_retriever_spec (vs : FAISSStore) (k top_k : Nat) (lm : Rat) :
    create_mmr_retriever vs k top_k lm false = Retriever.mmr vs k top_k lm
    ∧ create_mmr_retriever vs k top_k lm true = Retriever.similarity vs k
    ∧ (∀ b, (create_mmr_retriever vs k top_k lm b).keepK = k)
    ∧ (∀ r, qaRetriever vs k top_k true r =
        create_mmr_retriever vs k top_k (8 / 10 : Rat) r) := by
  refine ⟨rfl, rfl, ?_, ?_⟩
  · intro b
    cases b <;> rfl
  · intro r
    rfl

/- ### Evaluation sampling (src/generate_evaluation_questions.py)

`random.sample` is a function parameter `pick`; the theorem assumes of it
exactly the contract of `random.sample(population, n)`: `n` pairwise
distinct elements of the population.  The `docstore._dict` dictionary is
an association list, and `similarity_search_by_vector` is a parameter. -/

/-- One neighbor record in a sample entry: text and source path. -/
structure NeighborEntry where
  text : String
  path : String
deriving DecidableEq

/-- One entry of the list built by `sample_text_chunks`. -/
structure SampleEntry where
  sid : Nat
  sample_text : String
  sample_path : String
  neighbors : List NeighborEntry
deriving DecidableEq

/-- The loop body of `sample_text_chunks` for one sampled document: embed
its text, retrieve `neighbors + 1` nearest chunks, drop those carrying the
sample's own text, and keep at most `neighbors` of them. -/
def processSample (emb : String → List Int) (search : List Int → Nat → List Document)
    (neighbors : Nat) (i : Nat) (doc : Document) : SampleEntry :=
  let sample_text := doc.page_content
  let nbrs := ((search (emb sample_text) (neighbors + 1)).filter
      (fun d => decide ¬(d.page_content = sample_text))).take neighbors
  ⟨i, sample_text, doc.source.getD ("Unknown"),
    nbrs.map (fun d => ⟨d.page_content, d.source.getD ("Unknown")⟩)⟩

/-- The `num_samples` reduction of `sample_text_chunks`: the requested
count, capped at the number of indexed chunks. -/
def sampleCount (docstore : List (String × Document)) (num_samples : Nat) : Nat :=
  if (docstore.map Prod.fst).length < num_samples then (docstore.map Prod.fst).length
  else num_samples

/-- Embedding of `sample_text_chunks`
(src/generate_evaluation_questions.py, lines 12-89): raise `ValueError`
on an empty docstore; otherwise sample `sampleCount` ids, and build one
entry per sampled id whose document can be fetched (a per-id exception
skips the id, modelled by `filterMap`). -/
def sample_text_chunks (docstore : List (String × Document))
    (pick : List String → Nat → List String)
    (emb : String → List Int) (search : List Int → Nat → List Document)
    (num_samples neighbors : Nat) : Except String (List SampleEntry) :=
  let doc_ids := docstore.map Prod.fst
  if doc_ids.isEmpty then Except.error ("No documents found in vectorstore")
  else
    let n := if doc_ids.length < num_samples then doc_ids.length else num_samples
    let sample_ids := pick doc_ids n
    Except.ok (sample_ids.enum.filterMap (fun q =>
      (docstore.lookup q.2).map (fun doc => processSample emb search neighbors q.1 doc)))

theorem filterMap_length_all_some {α β : Type} (f : α → Option β) (l : List α)
    (h : ∀ a ∈ l, (f a).isSome = true) : (l.filterMap f).length = l.length := by
  induction l with
  | nil => rfl
  | cons x xs ih =>
      have hx := h x (List.mem_cons_self x xs)
      cases hfx : f x with
      | none =>
          rw [hfx] at hx
          simp at hx
      | some b =>
          rw [List.filterMap_cons, hfx]
          simp only [List.length_cons]
          rw [ih (fun a ha => h a (List.mem_cons_of_mem x ha))]

theorem mem_enumFrom_snd {α : Type} :
    ∀ (l : List α) (n : Nat) (q : Nat × α), q ∈ List.enumFrom n l → q.2 ∈ l := by
  intro l
  induction l with
  | nil =>
      intro n q h
      simp [List.enumFrom] at h
  | cons x xs ih =>
      intro n q h
      rw [List.enumFrom_cons] at h
      rcases List.mem_cons.mp h with rfl | h2
      · simp
      · exact List.mem_cons_of_mem x (ih (n + 1) q h2)

/-- C7: under the `random.sample` contract for `pick` (right length,
members of the id list, no repetition), `sample_text_chunks` succeeds on a
nonempty docstore and returns exactly `min num_samples (number of indexed
chunks)` entries — in particular at most `num_samples` — and every entry
carries at most `neighbors` neighbor chunks, none of whose text equals the
entry's own sample text. -/
theorem sample_text_chunks_spec (docstore : List (String × Document))
    (pick : List String → Nat → List String)
    (emb : String → List Int) (search : List Int → Nat → List Document)
    (num_samples neighbors : Nat)
    (hne : docstore ≠ [])
    (hlen : (pick (docstore.map Prod.fst) (sampleCount docstore num_samples)).length
        = sampleCount docstore num_samples)
    (hsub : ∀ x ∈ pick (docstore.map Prod.fst) (sampleCount docstore num_samples),
        x ∈ docstore.map Prod.fst)
    (hnd : (pick (docstore.map Prod.fst) (sampleCount docstore num_samples)).Nodup) :
    ∃ out,
      sample_text_chunks docstore pick emb search num_samples neighbors = Except.ok out
      ∧ out.length = sampleCount docstore num_samples
      ∧ out.length ≤ num_samples
      ∧ (∀ e ∈ out, e.neighbors.length ≤ neighbors
          ∧ ∀ nb ∈ e.neighbors, ¬(nb.text = e.sample_text)) := by
  have hids : ¬((docstore.map Prod.fst).isEmpty = true) := by
    cases docstore with
    | nil => exact absurd rfl hne
    | cons x xs => simp
  refine ⟨(pick (docstore.map Prod.fst) (sampleCount docstore num_samples)).enum.filterMap
      (fun q => (docstore.lookup q.2).map
        (fun doc => processSample emb search neighbors q.1 doc)), ?_, ?_, ?_, ?_⟩
  · unfold sample_text_chunks
    rw [if_neg hids]
    rfl
  · have hall : ∀ q ∈ (pick (docstore.map Prod.fst)
        (sampleCount docstore num_samples)).enum,
        ((docstore.lookup q.2).map
          (fun doc => processSample emb search neighbors q.1 doc)).isSome = true := by
      intro q hq
      have hmem : q.2 ∈ pick (docstore.map Prod.fst) (sampleCount docstore num_samples) :=
        mem_enumFrom_snd _ 0 q hq
      have hkey := hsub q.2 hmem
      have hsome := (lookup_isSome_iff_mem docstore q.2).mpr hkey
      cases hl : docstore.lookup q.2 with
      | none =>
          rw [hl] at hsome
          simp at hsome
      | some doc => rfl
    rw [filterMap_length_all_some _ _ hall, List.enum_length, hlen]
  · rw [filterMap_length_all_some, List.enum_length, hlen]
    · unfold sampleCount
      split <;> omega
    · intro q hq
      have hmem : q.2 ∈ pick (docstore.map Prod.fst) (sampleCount docstore num_samples) :=
        mem_enumFrom_snd _ 0 q hq
      have hsome := (lookup_isSome_iff_mem docstore q.2).mpr (hsub q.2 hmem)
      cases hl : docstore.lookup q.2 with
      | none =>
          rw [hl] at hsome
          simp at hsome
      | some doc => rfl
  · intro e he
    obtain ⟨q, hq, hfq⟩ := List.mem_filterMap.mp he
    cases hl : docstore.lookup q.2 with
    | none =>
        rw [hl] at hfq
        simp at hfq
    | some doc =>
        rw [hl] at hfq
        simp only [Option.map_some'] at hfq
        obtain rfl := Option.some.inj hfq
        constructor
        · simp only [processSample, List.length_map]
          exact le_trans (List.length_take_le neighbors _) le_rfl
        · intro nb hnb
          simp only [processSample, List.mem_map] at hnb
          obtain ⟨d, hd, rfl⟩ := hnb
          have hdf := List.mem_of_mem_take hd
          have hne2 := (List.mem_filter.mp hdf).2
          rw [decide_eq_true_iff] at hne2
          exact hne2

/-- Concrete sample documents for the C7 witness. -/
def docW1 : Document := ⟨"A", some ("pa")⟩

/-- Second concrete sample document. -/
def docW2 : Document := ⟨"B", none⟩

/-- A two-chunk docstore. -/
def docstoreW : List (String × Document) := [("a", docW1), ("b", docW2)]

/-- A deterministic instance of the `random.sample` contract. -/
def pickW : List String → Nat → List String := fun l n => l.take n

/-- A deterministic nearest-neighbor search over the two chunks. -/
def searchW : List Int → Nat → List Document := fun _ k => [docW1, docW2].take k

theorem sample_text_chunks_spec_witness :
    (docstoreW ≠ []
      ∧ (pickW (docstoreW.map Prod.fst) (sampleCount docstoreW 1)).length
          = sampleCount docstoreW 1
      ∧ (∀ x ∈ pickW (docstoreW.map Prod.fst) (sampleCount docstoreW 1),
          x ∈ docstoreW.map Prod.fst)
      ∧ (pickW (docstoreW.map Prod.fst) (sampleCount docstoreW 1)).Nodup)
    ∧ ∃ out, sample_text_chunks docstoreW pickW embZero searchW 1 5 = Except.ok out
        ∧ out.length = sampleCount docstoreW 1
        ∧ out.length ≤ 1
        ∧ (∀ e ∈ out, e.neighbors.length ≤ 5
            ∧ ∀ nb ∈ e.neighbors, ¬(nb.text = e.sample_text)) :=
  ⟨⟨by decide, by decide, by decide, by decide⟩,
   sample_text_chunks_spec docstoreW pickW embZero searchW 1 5 (by decide) (by decide)
     (by decide) (by decide)⟩

/- ### Response formatting (src/utils/response_formatter.py) -/

/-- Space or tab: the characters a dedent margin consists of. -/
def isWs (c : Char) : Bool := c == ' ' || c == '\t'

/-- Split a character list at newlines (Python `str.split('\n')`). -/
def linesOf : List Char → List (List Char)
  | [] => [[]]
  | c :: t =>
      if c = '\n' then [] :: linesOf t
      else
        match linesOf t with
        | [] => [[c]]
        | l :: ls => (c :: l) :: ls

/-- Join lines back with newlines. -/
def joinNl : List (List Char) → List Char
  | [] => []
  | [l] => l
  | l :: ls => l ++ '\n' :: joinNl ls

/-- Longest shared leading run of two character lists. -/
def sharedStart : List Char → List Char → List Char
  | a :: as, b :: bs => if a = b then a :: sharedStart as bs else []
  | _, _ => []

/-- `textwrap.dedent`, per the CPython implementation: lines consisting
solely of whitespace are first emptied; the margin is the longest common
leading whitespace of the remaining nonempty lines; the margin, when
nonempty, is removed from the start of every line carrying it. -/
def dedentChars (cs : List Char) : List Char :=
  let ls := (linesOf cs).map (fun l => if !l.isEmpty && l.all isWs then [] else l)
  let margin := ls.foldl
    (fun acc l =>
      if l.isEmpty then acc
      else
        match acc with
        | none => some (l.takeWhile isWs)
        | some m => some (sharedStart m (l.takeWhile isWs)))
    none
  match margin with
  | none => joinNl ls
  | some m =>
      if m.isEmpty then joinNl ls
      else joinNl (ls.map (fun l => if m.isPrefixOf l then l.drop m.length else l))

/-- `textwrap.dedent` on strings. -/
def dedent (s : String) : String := String.mk (dedentChars s.toList)

/-- The syntax-highlighting language chosen from the file extension. -/
def langFor (ext : String) : String :=
  if ext ∈ [".js", ".jsx", ".ts", ".tsx"] then "javascript"
  else if ext ∈ [".html", ".htm"] then "html"
  else if ext ∈ [".css"] then "css"
  else if ext ∈ [".json"] then "json"
  else if ext ∈ [".md", ".markdown"] then "markdown"
  else "python"

/-- `doc.metadata.get("source", "Unknown source")`. -/
def sourcePath (d : Document) : String := d.source.getD ("Unknown source")

/-- The text appended for the source numbered `n` in `format_response`. -/
def srcBlock (n : Nat) (d : Document) : String :=
  "### Source " ++ toString n ++ ": " ++ basenameStr (sourcePath d) ++ "\n" ++
    "**Path:** `" ++ sourcePath d ++ "`\n\n" ++
    "```" ++ langFor (extOf (sourcePath d)) ++ "\n" ++
    dedent d.page_content ++ "\n```\n\n"

/-- Embedding of `format_response` (src/utils/response_formatter.py, lines
6-46): the answer section followed by one source block per document,
accumulated in a loop over `enumerate(source_documents)`. -/
def format_response (answer : String) (source_documents : List Document) : String :=
  source_documents.enum.foldl (fun acc q => acc ++ srcBlock (q.1 + 1) q.2)
    ("## Answer\n\n" ++ answer ++ "\n\n## Sources\n\n")

/-- Decidable contiguous-substring test. -/
def containsSub (needle : List Char) : List Char → Bool
  | [] => needle.isEmpty
  | c :: t => needle.isPrefixOf (c :: t) || containsSub needle t

theorem isPrefixOf_iff_exists (a : List Char) :
    ∀ l, a.isPrefixOf l = true ↔ ∃ t, l = a ++ t := by
  induction a with
  | nil =>
      intro l
      simp [List.isPrefixOf]
  | cons x xs ih =>
      intro l
      cases l with
      | nil => simp [List.isPrefixOf]
      | cons y ys =>
          simp only [List.isPrefixOf, Bool.and_eq_true, beq_iff_eq, ih, List.cons_append]
          constructor
          · rintro ⟨rfl, t, rfl⟩
            exact ⟨t, rfl⟩
          · rintro ⟨t, ht⟩
            injection ht with h1 h2
            exact ⟨h1.symm, t, h2⟩

theorem containsSub_iff (needle : List Char) :
    ∀ hay, containsSub needle hay = true ↔ ∃ p q, hay = p ++ (needle ++ q) := by
  intro hay
  induction hay with
  | nil =>
      simp only [containsSub, List.isEmpty_iff]
      constructor
      · intro h
        subst h
        exact ⟨[], [], rfl⟩
      · rintro ⟨p, q, hpq⟩
        have h1 := List.append_eq_nil.mp hpq.symm
        exact (List.append_eq_nil.mp h1.2).1
  | cons c t ih =>
      simp only [containsSub, Bool.or_eq_true, isPrefixOf_iff_exists, ih]
      constructor
      · rintro (⟨q, hq⟩ | ⟨p, q, hpq⟩)
        · exact ⟨[], q, by simpa using hq⟩
        · exact ⟨c :: p, q, by simp [hpq]⟩
      · rintro ⟨p, q, hpq⟩
        cases p with
        | nil =>
            left
            exact ⟨q, by simpa using hpq⟩
        | cons x xs =>
            right
            injection hpq with h1 h2
            subst h1
            exact ⟨xs, q, h2⟩

/-- C8 counterexample: with answer `A` and a single source whose page
content is the two-space-indented `"  x"`, the formatted response does not
contain that page content anywhere — `textwrap.dedent` stripped the
indentation before placing it in the fenced block — so the response does
not reproduce the page content verbatim. -/
theorem format_response_not_verbatim_content :
    ¬ ∃ p q, (format_response ("A") [⟨"  x", some ("f.py")⟩]).toList
        = p ++ (("  x").toList ++ q) := by
  rw [← containsSub_iff]
  decide

/-- Specification-side rendering of the sources section: one block per
document, numbered consecutively starting from `n`, in input order. -/
def sourcesFrom (n : Nat) : List Document → String
  | [] => ""
  | d :: ds => srcBlock n d ++ sourcesFrom (n + 1) ds

theorem enumFrom_foldl_sources (docs : List Document) :
    ∀ (n : Nat) (acc : String),
      (List.enumFrom n docs).foldl (fun acc q => acc ++ srcBlock (q.1 + 1) q.2) acc
        = acc ++ sourcesFrom (n + 1) docs := by
  induction docs with
  | nil =>
      intro n acc
      simp [sourcesFrom, List.enumFrom]
  | cons d ds ih =>
      intro n acc
      rw [List.enumFrom_cons, List.foldl_cons, ih]
      show acc ++ srcBlock (n + 1) d ++ sourcesFrom (n + 1 + 1) ds
          = acc ++ (srcBlock (n + 1) d ++ sourcesFrom (n + 1 + 1) ds)
      rw [String.append_assoc]

/-- C8 (amended): `format_response` is the `## Answer` section holding the
answer verbatim, followed by the `## Sources` section with one entry per
source document, numbered consecutively from 1 in input order, each entry
citing the document's file path and reproducing its page content — as
transformed by `textwrap.dedent` — in a fenced code block. -/
theorem format_response_sections (answer : String) (docs : List Document) :
    format_response answer docs =
      ("## Answer\n\n" ++ answer ++ "\n\n## Sources\n\n") ++ sourcesFrom 1 docs := by
  unfold format_response
  exact enumFrom_foldl_sources docs 0 ("## Answer\n\n" ++ answer ++ "\n\n## Sources\n\n")

/- ### Search entry point (src/utils/qa_chain.py) -/

/-- Embedding of `search_code` (src/utils/qa_chain.py, lines 87-121).
The `qa_search` LLM round trip and `similarity_search` are parameters
(`sim` may raise); when no vectorstore is passed, one is loaded from the
persisted index. -/
def search_code (qa : FAISSStore → String → Nat → Bool → String)
    (sim : FAISSStore → String → Nat → Except String (List Document))
    (query search_type : String) (k : Nat) (rerank : Bool)
    (vectorstore : Option FAISSStore) (disk : DiskIndex) : String :=
  let vs := match vectorstore with
    | none => get_vectorstore disk
    | some v => some v
  match vs with
  | none => "Error: No vectorstore found. Please index your code repository first."
  | some v =>
      if search_type = "qa" then qa v query k rerank
      else
        match sim v query k with
        | Except.ok results => format_response ("Results for: " ++ query) results
        | Except.error e => "Error during search: " ++ e

/-- C9: for every query, search type, `k` and rerank flag, when no
vectorstore is passed in and none can be loaded from disk, `search_code`
returns the fixed error string rather than raising. -/
theorem search_code_no_vectorstore_error
    (qa : FAISSStore → String → Nat → Bool → String)
    (sim : FAISSStore → String → Nat → Except String (List Document))
    (query search_type : String) (k : Nat) (rerank : Bool) :
    search_code qa sim query search_type k rerank none none =
      "Error: No vectorstore found. Please index your code repository first." := rfl
